import Mathlib

/-!
A shallow embedding of the quiz-app backend (Django app `quiz`) and proofs
about its documented behaviour.

The embedding translates the Python source of `src/quiz/models.py`,
`src/quiz/utils.py`, `src/quiz/serializers.py` and `src/quiz/views.py` into
executable Lean definitions.  The relational store is modelled as lists of
records; `timezone.now()` values are passed explicitly as integer seconds;
floating-point scores are modelled with rationals.  Entity fields that no
verified property mentions (creation timestamps, descriptions, the textual
share code, answer timestamps) are omitted from the record types.
-/

namespace QuizApp

/-- Quiz row (models.py `Quiz`): creator, duration in minutes, visibility and
anonymous-attempt flags.  Users are identified by numeric ids. -/
structure Quiz where
  id : Nat
  title : String
  creator : Nat
  duration_minutes : Nat
  is_public : Bool
  allow_anonymous_attempts : Bool
deriving DecidableEq

/-- Question row (models.py `Question`): belongs to a quiz, carries text and an
integer order. -/
structure Question where
  id : Nat
  quizId : Nat
  text : String
  order : Nat
deriving DecidableEq

/-- Choice row (models.py `Choice`): belongs to a question, carries text, the
correctness flag and an integer order. -/
structure Choice where
  id : Nat
  questionId : Nat
  text : String
  is_correct : Bool
  order : Nat
deriving DecidableEq

/-- Quiz attempt session row (models.py `QuizSession`): quiz and user
references, a start time, and nullable completion time and score. -/
structure QuizSession where
  id : Nat
  quizId : Nat
  userId : Nat
  started_at : Int
  completed_at : Option Int
  score : Option ℚ
deriving DecidableEq

/-- Answer row (models.py `UserAnswer`): session, question and selected choice
references.  The `answered_at` timestamp is omitted (no verified property
mentions it).  The table carries `unique_together = [session, question]`. -/
structure UserAnswer where
  sessionId : Nat
  questionId : Nat
  selectedChoiceId : Nat
deriving DecidableEq

/-- Permission levels of a quiz share (models.py `QuizShare.permission_type`). -/
inductive Perm where
  | view
  | attempt
  | edit
deriving DecidableEq

/-- Share row (models.py `QuizShare`): quiz, granter (`shared_by`), grantee
(`shared_with`) and a permission level.  The table carries
`unique_together = [quiz, shared_with]`. -/
structure QuizShare where
  quizId : Nat
  shared_by : Nat
  shared_with : Nat
  permission_type : Perm
deriving DecidableEq

/-- The relational store: one list per table. -/
structure Store where
  quizzes : List Quiz
  questions : List Question
  choices : List Choice
  sessions : List QuizSession
  answers : List UserAnswer
  shares : List QuizShare
deriving DecidableEq

/-- Row lookup by primary key: `Quiz.objects.get(id=...)`. -/
def findQuiz (st : Store) (quizId : Nat) : Option Quiz :=
  st.quizzes.find? (fun q => decide (q.id = quizId))

/-- Row lookup by primary key: `QuizSession.objects.get(id=...)`. -/
def findSession (st : Store) (sessionId : Nat) : Option QuizSession :=
  st.sessions.find? (fun s => decide (s.id = sessionId))

/-- The key of the `unique_together = [session, question]` constraint. -/
def answerKey (a : UserAnswer) : Nat × Nat :=
  (a.sessionId, a.questionId)

/-- Boolean test that an answer row has the given (session, question) key. -/
def matchKey (sid qid : Nat) (a : UserAnswer) : Bool :=
  decide (a.sessionId = sid ∧ a.questionId = qid)

/-- Boolean test of `Question.objects.get(id=question_id, quiz=session.quiz)`. -/
def questionMatch (qid quizId : Nat) (q : Question) : Bool :=
  decide (q.id = qid ∧ q.quizId = quizId)

/-- Boolean test of `Choice.objects.get(id=choice_id, question=question)`. -/
def choiceMatch (cid questionId : Nat) (c : Choice) : Bool :=
  decide (c.id = cid ∧ c.questionId = questionId)

/-- Boolean test that a share row has the given (quiz, grantee) unique key. -/
def shareKeyMatch (quizId grantee : Nat) (sh : QuizShare) : Bool :=
  decide (sh.quizId = quizId ∧ sh.shared_with = grantee)

/-- Join through the `selected_choice` foreign key to its `is_correct` flag
(the filter `selected_choice__is_correct=True`).  In the database the foreign
key always resolves; an unresolvable id is read as not-correct. -/
def choiceIsCorrect (st : Store) (choiceId : Nat) : Bool :=
  match st.choices.find? (fun c => decide (c.id = choiceId)) with
  | some c => c.is_correct
  | none => false

/-- utils.py `calculate_quiz_score`: percentage of the quiz's questions whose
recorded answer selected a correct choice; `0` for a quiz with no questions. -/
def calculate_quiz_score (st : Store) (session : QuizSession) : ℚ :=
  let total_questions := (st.questions.filter (fun q => decide (q.quizId = session.quizId))).length
  if total_questions = 0 then 0
  else
    let correct_answers :=
      (st.answers.filter
        (fun a => decide (a.sessionId = session.id) && choiceIsCorrect st a.selectedChoiceId)).length
    ((correct_answers : ℚ) / (total_questions : ℚ)) * 100

/-- `session.save()` for a session object loaded from the store: update the row
with the session's primary key (sessions being completed are always loaded from
the store first, so the row exists). -/
def updateSessionList (s : QuizSession) : List QuizSession → List QuizSession
  | [] => []
  | x :: rest => if x.id = s.id then s :: rest else x :: updateSessionList s rest

/-- utils.py `complete_quiz_session`: if the session has no completion
timestamp yet, stamp it with `now`, compute and store the score, and save. -/
def complete_quiz_session (st : Store) (now : Int) (session : QuizSession) :
    Store × QuizSession :=
  match session.completed_at with
  | some _ => (st, session)
  | none =>
      let s := { session with
                  completed_at := some now,
                  score := some (calculate_quiz_score st session) }
      ({ st with sessions := updateSessionList s st.sessions }, s)

/-- models.py `QuizSession.is_completed`. -/
def is_completed (session : QuizSession) : Bool :=
  session.completed_at.isSome

/-- models.py `QuizSession.is_timed_out`: a non-completed session is timed out
once strictly more than `duration_minutes * 60` seconds have elapsed. -/
def is_timed_out (st : Store) (now : Int) (session : QuizSession) : Bool :=
  match session.completed_at with
  | some _ => false
  | none =>
      match findQuiz st session.quizId with
      | some qz => decide ((qz.duration_minutes : Int) * 60 < now - session.started_at)
      | none => false

/-- `UserAnswer.objects.update_or_create(session=.., question=.., defaults=..)`:
update the selected choice of the row with the given unique key, or insert a
new row. -/
def upsertAnswerList (sid qid cid : Nat) : List UserAnswer → List UserAnswer
  | [] => [⟨sid, qid, cid⟩]
  | a :: rest =>
      if matchKey sid qid a then ⟨a.sessionId, a.questionId, cid⟩ :: rest
      else a :: upsertAnswerList sid qid cid rest

/-- Outcome of views.py `QuizSessionViewSet.submit_answer`, one constructor per
response branch. -/
inductive SubmitResult where
  | ok (sessionId questionId choiceId : Nat)
  | sessionNotFound
  | alreadyCompleted
  | timedOut
  | missingIds
  | invalidQuestion
  | invalidChoice
deriving DecidableEq

/-- views.py `QuizSessionViewSet.submit_answer`: reject completed sessions;
auto-complete and reject timed-out sessions; validate that the question belongs
to the session's quiz and the choice to the question; then upsert the answer. -/
def submit_answer (st : Store) (now : Int) (sessionId : Nat)
    (question_id choice_id : Option Nat) : Store × SubmitResult :=
  match findSession st sessionId with
  | none => (st, .sessionNotFound)
  | some session =>
      if is_completed session then (st, .alreadyCompleted)
      else if is_timed_out st now session then
        ((complete_quiz_session st now session).1, .timedOut)
      else
        match question_id, choice_id with
        | none, _ => (st, .missingIds)
        | _, none => (st, .missingIds)
        | some qid, some cid =>
            match st.questions.find? (questionMatch qid session.quizId) with
            | none => (st, .invalidQuestion)
            | some q =>
                match st.choices.find? (choiceMatch cid q.id) with
                | none => (st, .invalidChoice)
                | some c =>
                    ({ st with answers := upsertAnswerList session.id q.id c.id st.answers },
                     .ok session.id q.id c.id)

/-- Outcome of views.py `QuizSessionViewSet.complete`. -/
inductive CompleteResult where
  | ok (session : QuizSession)
  | sessionNotFound
  | alreadyCompleted
deriving DecidableEq

/-- views.py `QuizSessionViewSet.complete`: reject already-completed sessions,
otherwise finalize through `complete_quiz_session` and return the session. -/
def complete (st : Store) (now : Int) (sessionId : Nat) : Store × CompleteResult :=
  match findSession st sessionId with
  | none => (st, .sessionNotFound)
  | some session =>
      if is_completed session then (st, .alreadyCompleted)
      else
        let r := complete_quiz_session st now session
        (r.1, .ok r.2)

/-- One extracted choice record, as parsed from the vision model's JSON.
`none` models an absent key. -/
structure ChoiceData where
  choice_text : Option String
  is_correct : Option Bool
deriving DecidableEq

/-- One extracted question record. -/
structure QuestionData where
  question_text : Option String
  choices : Option (List ChoiceData)
deriving DecidableEq

/-- The parsed extraction payload (`parsed_data`). -/
structure ParsedData where
  questions : Option (List QuestionData)
deriving DecidableEq

/-- The inner loop of utils.py `create_quiz_from_parsed_data` over
`q_data.get('choices', [])`.  A missing `choice_text` key raises `KeyError`,
which aborts the loop; rows created before the bad record are kept (they were
already persisted).  `is_correct` defaults to `False`.  The Bool reports
whether the loop finished without an exception.  Row ids are positional. -/
def createChoicesLoop (questionId : Nat) (choice_order : Nat) :
    List ChoiceData → List Choice × Bool
  | [] => ([], true)
  | cd :: rest =>
      match cd.choice_text with
      | none => ([], false)
      | some t =>
          let c : Choice := ⟨choice_order, questionId, t, cd.is_correct.getD false, choice_order⟩
          let r := createChoicesLoop questionId (choice_order + 1) rest
          (c :: r.1, r.2)

/-- The outer loop of utils.py `create_quiz_from_parsed_data` over the question
records.  A missing `question_text` key raises `KeyError` and aborts the loop;
a failure inside a question's choices keeps that (already persisted) question
and its earlier choices.  Question ids are positional. -/
def createQuestionsLoop (quizId : Nat) (q_order : Nat) :
    List QuestionData → List Question × List Choice × Bool
  | [] => ([], [], true)
  | qd :: rest =>
      match qd.question_text with
      | none => ([], [], false)
      | some t =>
          let q : Question := ⟨q_order, quizId, t, q_order⟩
          let rc := createChoicesLoop q.id 0 (qd.choices.getD [])
          if rc.2 then
            let rr := createQuestionsLoop quizId (q_order + 1) rest
            (q :: rr.1, rc.1 ++ rr.2.1, rr.2.2)
          else
            ([q], rc.1, false)

/-- Everything utils.py `create_quiz_from_parsed_data` wrote to the store, plus
whether it returned the quiz (`returnedQuiz = false` models the `except`
branch returning `None`). -/
structure BuildResult where
  quiz : Quiz
  questions : List Question
  choices : List Choice
  returnedQuiz : Bool
deriving DecidableEq

/-- utils.py `create_quiz_from_parsed_data`: create the quiz row, then the
questions and choices from `parsed_data.get('questions', [])`.  Every
exception is caught inside the function (`except Exception`), so on a
malformed record it returns `None` while the rows created so far stay. -/
def create_quiz_from_parsed_data (userId : Nat) (title : String) (pd : ParsedData)
    (duration_minutes : Nat) (is_public : Bool) : BuildResult :=
  let qz : Quiz := ⟨0, title, userId, duration_minutes, is_public, false⟩
  let r := createQuestionsLoop qz.id 0 (pd.questions.getD [])
  ⟨qz, r.1, r.2.1, r.2.2⟩

/-- HTTP outcome of views.py `CreateQuizFromImageView.create`. -/
inductive BuildResponse where
  | created
  | serverError
deriving DecidableEq

/-- views.py `CreateQuizFromImageView.create`: runs
`create_quiz_from_parsed_data` inside `transaction.atomic()` and answers 201 on
a quiz, 500 on `None`.  Because `create_quiz_from_parsed_data` catches every
exception internally, no exception ever escapes the atomic block, so the
transaction always commits and the rows built before a failure stay stored.
The second component is the store contents (quizzes, questions, choices)
produced by the call. -/
def createQuizFromImageView (userId : Nat) (title : String) (pd : ParsedData)
    (duration_minutes : Nat) (is_public : Bool) :
    BuildResponse × (List Quiz × List Question × List Choice) :=
  let r := create_quiz_from_parsed_data userId title pd duration_minutes is_public
  ((if r.returnedQuiz then .created else .serverError), ([r.quiz], r.questions, r.choices))

/-- The viewer classification supplied by the auth layer. -/
inductive Viewer where
  | anonymous
  | authenticated (userId : Nat)
deriving DecidableEq

/-- `quiz.shared_with.filter(id=user.id).exists()`: membership in the
`QuizShare` through-table. -/
def quizSharedWithUser (st : Store) (quizId userId : Nat) : Bool :=
  st.shares.any (shareKeyMatch quizId userId)

/-- The access check of views.py `QuizViewSet.by_share_code` and
`JoinQuizByShareCodeView.retrieve` (both run the same test): a non-public quiz
is served to an anonymous viewer only when it allows anonymous attempts, and to
an authenticated viewer only when they are the creator or the quiz is shared
with them. -/
def canViewByShareCode (st : Store) (qz : Quiz) (v : Viewer) : Bool :=
  if qz.is_public then true
  else
    match v with
    | .anonymous => qz.allow_anonymous_attempts
    | .authenticated u => decide (qz.creator = u) || quizSharedWithUser st qz.id u

/-- views.py `IsCreatorOrReadOnly.has_object_permission`: safe methods are
always allowed; mutating methods only for the creator (an anonymous request
user never equals the creator). -/
def isCreatorOrReadOnly (isSafeMethod : Bool) (qz : Quiz) (v : Viewer) : Bool :=
  if isSafeMethod then true
  else
    match v with
    | .anonymous => false
    | .authenticated u => decide (qz.creator = u)

/-- `QuizShare.objects.filter(quiz=.., shared_with=.., permission_type='edit').exists()`. -/
def hasEditShare (st : Store) (quizId userId : Nat) : Bool :=
  st.shares.any
    (fun sh => decide (sh.quizId = quizId ∧ sh.shared_with = userId ∧ sh.permission_type = Perm.edit))

/-- Outcome of the `QuizShareViewSet` create path. -/
inductive SerializerShareResult where
  | ok (sh : QuizShare)
  | selfShareError
  | permissionError
  | integrityError
deriving DecidableEq

/-- The `QuizShareViewSet` create path: serializers.py
`QuizShareSerializer.validate` first rejects `shared_with == request.user`,
then rejects a granter who is neither the quiz creator nor the holder of an
`edit` share; `create` then inserts the row (`shared_by = request.user`), and
the `unique_together = [quiz, shared_with]` constraint makes a duplicate
insert fail. -/
def shareViaSerializer (st : Store) (granter : Nat) (qz : Quiz) (grantee : Nat)
    (perm : Perm) : Store × SerializerShareResult :=
  if grantee = granter then (st, .selfShareError)
  else if qz.creator = granter ∨ hasEditShare st qz.id granter = true then
    if st.shares.any (shareKeyMatch qz.id grantee) then
      (st, .integrityError)
    else
      let sh : QuizShare := ⟨qz.id, granter, grantee, perm⟩
      ({ st with shares := st.shares ++ [sh] }, .ok sh)
  else (st, .permissionError)

/-- Outcome of views.py `QuizViewSet.share`. -/
inductive ShareActionResult where
  | ok (sh : QuizShare)
  | forbidden
deriving DecidableEq

/-- `share.save()` after updating the permission of an existing row: update the
row with the given unique (quiz, grantee) key. -/
def updateShareList (quizId grantee : Nat) (perm : Perm) : List QuizShare → List QuizShare
  | [] => []
  | sh :: rest =>
      if shareKeyMatch quizId grantee sh then
        { sh with permission_type := perm } :: rest
      else sh :: updateShareList quizId grantee perm rest

/-- views.py `QuizViewSet.share`: a granter who is neither the creator nor an
`edit`-share holder is rejected; otherwise `get_or_create` on
(quiz, shared_with), updating the permission when the row already exists.
There is no granter-equals-grantee check on this path. -/
def shareAction (st : Store) (granter : Nat) (qz : Quiz) (grantee : Nat)
    (perm : Perm) : Store × ShareActionResult :=
  if qz.creator = granter ∨ hasEditShare st qz.id granter = true then
    match st.shares.find? (shareKeyMatch qz.id grantee) with
    | some sh =>
        ({ st with shares := updateShareList qz.id grantee perm st.shares },
         .ok { sh with permission_type := perm })
    | none =>
        let sh : QuizShare := ⟨qz.id, granter, grantee, perm⟩
        ({ st with shares := st.shares ++ [sh] }, .ok sh)
  else (st, .forbidden)

/-- One `submit_answer` call of a call sequence. -/
structure SubmitOp where
  now : Int
  sessionId : Nat
  question_id : Option Nat
  choice_id : Option Nat

/-- Run a sequence of `submit_answer` calls. -/
def runSubmits (st : Store) : List SubmitOp → Store
  | [] => st
  | op :: rest =>
      runSubmits (submit_answer st op.now op.sessionId op.question_id op.choice_id).1 rest

/-- The stored selected choice for a (session, question) pair. -/
def lookupAnswerChoice (st : Store) (sid qid : Nat) : Option Nat :=
  (st.answers.find? (matchKey sid qid)).map (fun a => a.selectedChoiceId)

/-- The last-successful-submission tracker of `lastSuccessfulChoice`, advanced
by one call result. -/
def nextPrev (r : SubmitResult) (sid qid : Nat) (prev : Option Nat) : Option Nat :=
  match r with
  | .ok s q c => if s = sid ∧ q = qid then some c else prev
  | _ => prev

/-- Modelled from the spec's words (for comparison with the store contents):
the selected choice of the last successful submission for the (session,
question) pair across a call sequence, starting from whatever the store held
before the sequence. -/
def lastSuccessfulChoice (st : Store) (sid qid : Nat) (prev : Option Nat) :
    List SubmitOp → Option Nat
  | [] => prev
  | op :: rest =>
      let r := submit_answer st op.now op.sessionId op.question_id op.choice_id
      lastSuccessfulChoice r.1 sid qid (nextPrev r.2 sid qid prev) rest

/-- The answer table respects the `unique_together = [session, question]`
constraint: the keys of the stored answers are pairwise distinct. -/
def answerKeysNodup (st : Store) : Prop :=
  (st.answers.map answerKey).Nodup

/-- The share table respects the `unique_together = [quiz, shared_with]`
constraint. -/
def shareKeysNodup (st : Store) : Prop :=
  (st.shares.map (fun sh => (sh.quizId, sh.shared_with))).Nodup

/-- The stored share rows for a (quiz, grantee) pair. -/
def sharesFor (st : Store) (quizId grantee : Nat) : List QuizShare :=
  st.shares.filter (shareKeyMatch quizId grantee)

/-- Run a sequence of `QuizViewSet.share` calls by the quiz's creator for a
fixed (quiz, grantee) pair, one permission level per call. -/
def runCreatorShares (st : Store) (qz : Quiz) (grantee : Nat) : List Perm → Store
  | [] => st
  | p :: rest => runCreatorShares (shareAction st qz.creator qz grantee p).1 qz grantee rest

/-- Modelled from the spec's words (for comparison with the source score): the
score is 100 × (number of recorded answers whose selected choice is correct) /
(number of questions), and 0 for a quiz with zero questions. -/
def scoreSpec (st : Store) (session : QuizSession) : ℚ :=
  let n := (st.questions.filter (fun q => decide (q.quizId = session.quizId))).length
  let k := (st.answers.filter
      (fun a => decide (a.sessionId = session.id) && choiceIsCorrect st a.selectedChoiceId)).length
  if n = 0 then 0 else 100 * (k : ℚ) / (n : ℚ)

/-- A choice row as built from an extraction record: text from `choice_text`,
correctness defaulting to false, positional id and order. -/
def mkChoice (questionId choice_order : Nat) (cd : ChoiceData) : Choice :=
  ⟨choice_order, questionId, cd.choice_text.getD "", cd.is_correct.getD false, choice_order⟩

/-- The block of choice rows a fully processed question record yields. -/
def choicesBlock (questionId choice_order : Nat) : List ChoiceData → List Choice
  | [] => []
  | cd :: rest => mkChoice questionId choice_order cd :: choicesBlock questionId (choice_order + 1) rest

/-- A question row as built from an extraction record. -/
def mkQuestion (quizId q_order : Nat) (qd : QuestionData) : Question :=
  ⟨q_order, quizId, qd.question_text.getD "", q_order⟩

/-- The question rows a fully processed record list yields. -/
def questionRows (quizId q_order : Nat) : List QuestionData → List Question
  | [] => []
  | qd :: rest => mkQuestion quizId q_order qd :: questionRows quizId (q_order + 1) rest

/-- The choice rows a fully processed record list yields. -/
def choiceRows (q_order : Nat) : List QuestionData → List Choice
  | [] => []
  | qd :: rest => choicesBlock q_order 0 (qd.choices.getD []) ++ choiceRows (q_order + 1) rest

/-- Every record of the payload carries the keys the builder reads
unconditionally: `question_text` on questions, `choice_text` on choices. -/
def requiredKeysPresent (pd : ParsedData) : Prop :=
  ∀ qd ∈ pd.questions.getD [], qd.question_text.isSome = true ∧
    ∀ cd ∈ qd.choices.getD [], cd.choice_text.isSome = true

/-- A sample quiz used by the concrete witnesses: private, 10 minutes,
creator 7. -/
def quizEx : Quiz := ⟨1, "Sample", 7, 10, false, false⟩

/-- Questions of the sample quiz. -/
def q10 : Question := ⟨10, 1, "Q1", 0⟩

/-- Second question of the sample quiz. -/
def q11 : Question := ⟨11, 1, "Q2", 1⟩

/-- A session of user 8 on the sample quiz, started at time 0. -/
def sessEx : QuizSession := ⟨5, 1, 8, 0, none, none⟩

/-- The sample store: one quiz, two questions with two choices each (the first
choice of each question is the correct one), one open session, one recorded
answer that selected a correct choice, no shares. -/
def stEx : Store :=
  ⟨[quizEx], [q10, q11],
   [⟨100, 10, "A", true, 0⟩, ⟨101, 10, "B", false, 1⟩,
    ⟨110, 11, "A", true, 0⟩, ⟨111, 11, "B", false, 1⟩],
   [sessEx], [⟨5, 10, 100⟩], []⟩

/-- A malformed extraction payload: one question whose second choice record
has no `choice_text` key. -/
def pdBad : ParsedData :=
  ⟨some [⟨some "Q1", some [⟨some "A", some true⟩, ⟨none, some false⟩]⟩]⟩

/-- A well-formed extraction payload exercising the optional keys: the first
question record has no `choices` key, the second has a choice record with no
`is_correct` key. -/
def pdOpt : ParsedData :=
  ⟨some [⟨some "Q1", none⟩, ⟨some "Q2", some [⟨some "A", none⟩]⟩]⟩

/-- A sample call sequence used by the C5 witness: answer question 10 with
choice 101, then question 11 with choice 110, both inside the time limit. -/
def opsEx : List SubmitOp := [⟨30, 5, some 10, some 101⟩, ⟨31, 5, some 11, some 110⟩]

/-! ## Basic lemmas -/

theorem matchKey_eq_true {sid qid : Nat} {a : UserAnswer} :
    matchKey sid qid a = true ↔ a.sessionId = sid ∧ a.questionId = qid := by
  simp [matchKey]

theorem shareKeyMatch_eq_true {quizId grantee : Nat} {sh : QuizShare} :
    shareKeyMatch quizId grantee sh = true ↔ sh.quizId = quizId ∧ sh.shared_with = grantee := by
  simp [shareKeyMatch]

theorem find?_updateSessionList {l : List QuizSession} {sid : Nat} {s s' : QuizSession}
    (hfind : l.find? (fun x => decide (x.id = sid)) = some s) (hid : s'.id = s.id) :
    (updateSessionList s' l).find? (fun x => decide (x.id = sid)) = some s' := by
  induction l with
  | nil => simp at hfind
  | cons x rest ih =>
      by_cases hx : x.id = sid
      · rw [List.find?_cons_of_pos _ (by simpa using hx)] at hfind
        obtain rfl : x = s := by simpa using hfind
        rw [updateSessionList, if_pos (by rw [hid])]
        exact List.find?_cons_of_pos _ (by simp [hid, hx])
      · rw [List.find?_cons_of_neg _ (by simpa using hx)] at hfind
        have hs : s.id = sid := by simpa using List.find?_some hfind
        rw [updateSessionList, if_neg (by rw [hid, hs]; exact hx)]
        rw [List.find?_cons_of_neg _ (by simpa using hx)]
        exact ih hfind

theorem complete_quiz_session_answers (st : Store) (now : Int) (s : QuizSession) :
    (complete_quiz_session st now s).1.answers = st.answers := by
  unfold complete_quiz_session
  cases s.completed_at <;> rfl

theorem complete_quiz_session_open {s : QuizSession} (st : Store) (now : Int)
    (hnc : s.completed_at = none) :
    complete_quiz_session st now s =
      (let s₁ := { s with completed_at := some now,
                          score := some (calculate_quiz_score st s) }
       ({ st with sessions := updateSessionList s₁ st.sessions }, s₁)) := by
  unfold complete_quiz_session
  rw [hnc]

theorem calculate_quiz_score_eq_scoreSpec (st : Store) (s : QuizSession) :
    calculate_quiz_score st s = scoreSpec st s := by
  unfold calculate_quiz_score scoreSpec
  by_cases h : (st.questions.filter (fun q => decide (q.quizId = s.quizId))).length = 0
  · simp [h]
  · simp only [h, if_neg h]
    ring_nf

/-! ## C1: completing a session computes and persists the percentage score -/

/-- C1.  For a session loaded from the store that is not yet completed,
`complete_quiz_session` stamps the completion time, sets the score to
100 × (number of recorded answers whose selected choice is correct) /
(number of questions of the quiz) — 0 when the quiz has no questions — and
saves the session back to the store. -/
theorem c1_complete_score (st : Store) (now : Int) (sid : Nat) (s : QuizSession)
    (hfind : findSession st sid = some s) (hnc : s.completed_at = none) :
    (complete_quiz_session st now s).2.score = some (scoreSpec st s)
    ∧ (complete_quiz_session st now s).2.completed_at = some now
    ∧ findSession (complete_quiz_session st now s).1 sid =
        some (complete_quiz_session st now s).2 := by
  rw [complete_quiz_session_open st now hnc]
  refine ⟨by simp [calculate_quiz_score_eq_scoreSpec], rfl, ?_⟩
  exact find?_updateSessionList hfind rfl

/-- Witness for C1: in the sample store the session has answered one of the
two questions correctly, and completing it persists the score 50. -/
theorem c1_complete_score_witness :
    (complete_quiz_session stEx 30 sessEx).2.score = some 50
    ∧ findSession (complete_quiz_session stEx 30 sessEx).1 5 =
        some (complete_quiz_session stEx 30 sessEx).2 := by
  have h := c1_complete_score stEx 30 5 sessEx (by decide) rfl
  refine ⟨?_, h.2.2⟩
  rw [h.1]
  norm_num [scoreSpec, stEx, sessEx, choiceIsCorrect, q10, q11, quizEx, List.filter, List.find?]

/-! ## C2: the bulk build does not roll back on malformed input -/

/-- C2 (failing input).  The bulk build called on a payload whose second choice
record lacks `choice_text` answers a server error, yet the quiz, its first
question and its first choice stay stored: `create_quiz_from_parsed_data`
swallows the `KeyError`, so the surrounding `transaction.atomic()` block exits
normally and commits instead of rolling back. -/
theorem c2_no_rollback_on_malformed :
    (createQuizFromImageView 7 "T" pdBad 10 false).1 = BuildResponse.serverError
    ∧ (createQuizFromImageView 7 "T" pdBad 10 false).2.1 ≠ []
    ∧ ((createQuizFromImageView 7 "T" pdBad 10 false).2.2.1).length = 1
    ∧ ((createQuizFromImageView 7 "T" pdBad 10 false).2.2.2).length = 1 := by
  decide

/-! ## C7: the access policy -/

/-- C7.  The creator can always view the quiz through the share-code endpoints
and passes the mutating-method permission check, whatever the quiz's flags; an
anonymous viewer of a public quiz can view but not mutate; an anonymous viewer
of a private quiz that disallows anonymous attempts gets nothing. -/
theorem c7_access_policy (st : Store) (qz : Quiz) :
    (canViewByShareCode st qz (.authenticated qz.creator) = true
      ∧ isCreatorOrReadOnly false qz (.authenticated qz.creator) = true)
    ∧ (qz.is_public = true →
        canViewByShareCode st qz .anonymous = true
        ∧ isCreatorOrReadOnly false qz .anonymous = false)
    ∧ (qz.is_public = false → qz.allow_anonymous_attempts = false →
        canViewByShareCode st qz .anonymous = false
        ∧ isCreatorOrReadOnly false qz .anonymous = false) := by
  refine ⟨⟨?_, by simp [isCreatorOrReadOnly]⟩,
      fun hp => ⟨by simp [canViewByShareCode, hp], by simp [isCreatorOrReadOnly]⟩,
      fun hp ha => ⟨by simp [canViewByShareCode, hp, ha], by simp [isCreatorOrReadOnly]⟩⟩
  by_cases hp : qz.is_public <;> simp [canViewByShareCode, hp]

/-- Witness for C7: on the sample private quiz (creator 7, anonymous attempts
disallowed) the anonymous viewer is rejected and the creator is served. -/
theorem c7_access_policy_witness :
    canViewByShareCode stEx quizEx Viewer.anonymous = false
    ∧ canViewByShareCode stEx quizEx (Viewer.authenticated 7) = true := by
  have h := c7_access_policy stEx quizEx
  exact ⟨(h.2.2 rfl rfl).1, h.1.1⟩

/-! ## C8: self-share rejection exists on only one of the two creation paths -/

/-- C8 (counterexample).  On the `QuizViewSet.share` action path the creator
can share the quiz with themselves: the call succeeds and stores a share row
whose granter equals its grantee, so the claim does not hold on every
share-creation path. -/
theorem c8_counterexample_self_share_created :
    (shareAction stEx quizEx.creator quizEx quizEx.creator Perm.attempt).2
        = ShareActionResult.ok ⟨quizEx.id, quizEx.creator, quizEx.creator, Perm.attempt⟩
    ∧ ((shareAction stEx quizEx.creator quizEx quizEx.creator Perm.attempt).1).shares
        = [⟨quizEx.id, quizEx.creator, quizEx.creator, Perm.attempt⟩] := by
  decide

/-- C8 (amended).  The serializer-based path rejects every self-share with a
ValidationError and leaves the store unchanged, while the `QuizViewSet.share`
action path performs no self-share check: an authorized granter (the creator)
always obtains a share row whose grantee is the granter themselves. -/
theorem c8_amended_self_share (st : Store) (qz : Quiz) (granter : Nat) (perm : Perm) :
    shareViaSerializer st granter qz granter perm = (st, .selfShareError)
    ∧ ∃ sh, (shareAction st qz.creator qz qz.creator perm).2 = .ok sh
        ∧ sh.shared_with = qz.creator := by
  constructor
  · simp [shareViaSerializer]
  · unfold shareAction
    rw [if_pos (Or.inl rfl)]
    cases hf : st.shares.find? (shareKeyMatch qz.id qz.creator) with
    | none => exact ⟨_, rfl, rfl⟩
    | some sh0 =>
        refine ⟨_, rfl, ?_⟩
        have := shareKeyMatch_eq_true.mp (List.find?_some hf)
        exact this.2

/-! ## C4: completing twice fails on the second call and changes nothing -/

/-- C4.  Completing a non-completed session the view loaded from the store
succeeds, stores the completion timestamp and score, and a second `complete`
call answers the already-completed error with the store — hence the first
call's completion timestamp and score — untouched. -/
theorem c4_complete_twice (st : Store) (now₁ now₂ : Int) (sid : Nat) (s : QuizSession)
    (hfind : findSession st sid = some s) (hnc : s.completed_at = none) :
    (complete st now₁ sid).2 =
        .ok { s with completed_at := some now₁, score := some (calculate_quiz_score st s) }
    ∧ findSession (complete st now₁ sid).1 sid =
        some { s with completed_at := some now₁, score := some (calculate_quiz_score st s) }
    ∧ complete (complete st now₁ sid).1 now₂ sid = ((complete st now₁ sid).1, .alreadyCompleted) := by
  have hco : is_completed s = false := by simp [is_completed, hnc]
  have hop := complete_quiz_session_open st now₁ hnc
  have h1 : complete st now₁ sid =
      ((complete_quiz_session st now₁ s).1, .ok (complete_quiz_session st now₁ s).2) := by
    unfold complete
    rw [hfind]
    simp only [hco, Bool.false_eq_true, if_false]
  have h2 : (complete st now₁ sid).2 =
      .ok { s with completed_at := some now₁, score := some (calculate_quiz_score st s) } := by
    rw [h1, hop]
  have hfind₁ : findSession (complete st now₁ sid).1 sid =
      some { s with completed_at := some now₁, score := some (calculate_quiz_score st s) } := by
    rw [h1, hop]
    exact find?_updateSessionList hfind rfl
  refine ⟨h2, hfind₁, ?_⟩
  conv_lhs => rw [complete, hfind₁]
  simp [is_completed]

/-- Witness for C4: completing the sample session at time 40 and again at
time 60 leaves the store of the first call unchanged and reports the
already-completed error. -/
theorem c4_complete_twice_witness :
    complete (complete stEx 40 5).1 60 5 = ((complete stEx 40 5).1, CompleteResult.alreadyCompleted) :=
  (c4_complete_twice stEx 40 60 5 sessEx (by decide) rfl).2.2

/-! ## C3: a timed-out session rejects the answer and auto-completes -/

/-- C3.  A non-completed session whose elapsed time strictly exceeds the
quiz's `duration_minutes` reports `is_timed_out`; `submit_answer` on it
answers the timed-out error, records no answer, and completes the session with
the score computed from the answers recorded so far. -/
theorem c3_timeout_submit (st : Store) (now : Int) (sid : Nat)
    (question_id choice_id : Option Nat) (s : QuizSession) (qz : Quiz)
    (hfind : findSession st sid = some s)
    (hq : findQuiz st s.quizId = some qz)
    (hnc : s.completed_at = none)
    (helapsed : (qz.duration_minutes : Int) * 60 < now - s.started_at) :
    is_timed_out st now s = true
    ∧ (submit_answer st now sid question_id choice_id).2 = .timedOut
    ∧ (submit_answer st now sid question_id choice_id).1.answers = st.answers
    ∧ findSession (submit_answer st now sid question_id choice_id).1 sid =
        some { s with completed_at := some now, score := some (scoreSpec st s) } := by
  have hto : is_timed_out st now s = true := by
    unfold is_timed_out
    rw [hnc, hq]
    simpa using helapsed
  have hco : is_completed s = false := by simp [is_completed, hnc]
  have hsub : submit_answer st now sid question_id choice_id =
      ((complete_quiz_session st now s).1, .timedOut) := by
    unfold submit_answer
    rw [hfind]
    simp only [hco, Bool.false_eq_true, if_false, hto, if_true]
  refine ⟨hto, by rw [hsub], ?_, ?_⟩
  · rw [hsub]
    exact complete_quiz_session_answers st now s
  · rw [hsub, complete_quiz_session_open st now hnc]
    rw [calculate_quiz_score_eq_scoreSpec]
    exact find?_updateSessionList hfind rfl

/-- Witness for C3: at time 700 the sample 10-minute session started at time 0
is timed out, and a submission is rejected without touching the answers. -/
theorem c3_timeout_submit_witness :
    is_timed_out stEx 700 sessEx = true
    ∧ (submit_answer stEx 700 5 (some 10) (some 100)).2 = SubmitResult.timedOut
    ∧ (submit_answer stEx 700 5 (some 10) (some 100)).1.answers = stEx.answers := by
  have h := c3_timeout_submit stEx 700 5 (some 10) (some 100) sessEx quizEx
    (by decide) (by decide) rfl (by decide)
  exact ⟨h.1, h.2.1, h.2.2.1⟩

/-! ## C6: foreign-reference validation stores nothing -/

/-- C6.  On an in-progress session, `submit_answer` with a question id that
does not resolve inside the session's quiz, or with a choice id that does not
resolve inside that question, answers a validation error and leaves the store
unchanged. -/
theorem c6_invalid_refs (st : Store) (now : Int) (sid qid cid : Nat) (s : QuizSession)
    (hfind : findSession st sid = some s)
    (hnc : is_completed s = false)
    (hnt : is_timed_out st now s = false)
    (hbad : st.questions.find? (questionMatch qid s.quizId) = none
      ∨ ∃ q, st.questions.find? (questionMatch qid s.quizId) = some q
          ∧ st.choices.find? (choiceMatch cid q.id) = none) :
    (submit_answer st now sid (some qid) (some cid)).1 = st
    ∧ ((submit_answer st now sid (some qid) (some cid)).2 = .invalidQuestion
       ∨ (submit_answer st now sid (some qid) (some cid)).2 = .invalidChoice) := by
  have hsub : ∀ r, submit_answer st now sid (some qid) (some cid) = r ↔
      (match st.questions.find? (questionMatch qid s.quizId) with
       | none => (st, SubmitResult.invalidQuestion)
       | some q =>
          match st.choices.find? (choiceMatch cid q.id) with
          | none => (st, SubmitResult.invalidChoice)
          | some c =>
              ({ st with answers := upsertAnswerList s.id q.id c.id st.answers },
               SubmitResult.ok s.id q.id c.id)) = r := by
    intro r
    unfold submit_answer
    rw [hfind]
    simp only [hnc, Bool.false_eq_true, if_false, hnt, if_false]
  rcases hbad with hq | ⟨q, hq, hc⟩
  · have := (hsub (st, SubmitResult.invalidQuestion)).mpr (by simp only [hq])
    rw [this]
    exact ⟨rfl, Or.inl rfl⟩
  · have := (hsub (st, SubmitResult.invalidChoice)).mpr (by simp only [hq, hc])
    rw [this]
    exact ⟨rfl, Or.inr rfl⟩

/-- Witness for C6: submitting question id 99 (no such question in the sample
quiz) is rejected and the store is unchanged. -/
theorem c6_invalid_refs_witness :
    (submit_answer stEx 30 5 (some 99) (some 100)).1 = stEx
    ∧ (submit_answer stEx 30 5 (some 99) (some 100)).2 = SubmitResult.invalidQuestion := by
  have h := c6_invalid_refs stEx 30 5 99 100 sessEx (by decide) rfl rfl (Or.inl (by decide))
  exact ⟨h.1, by decide⟩

/-! ## Answer upsert lemmas (C5) -/

theorem upsert_find_same (sid qid cid : Nat) (l : List UserAnswer) :
    (upsertAnswerList sid qid cid l).find? (matchKey sid qid) = some ⟨sid, qid, cid⟩ := by
  induction l with
  | nil => simp [upsertAnswerList, List.find?, matchKey]
  | cons a rest ih =>
      by_cases h : matchKey sid qid a = true
      · obtain ⟨h1, h2⟩ := matchKey_eq_true.mp h
        rw [upsertAnswerList, if_pos h]
        rw [List.find?_cons_of_pos _
          (show matchKey sid qid (⟨a.sessionId, a.questionId, cid⟩ : UserAnswer) = true from h)]
        rw [h1, h2]
      · rw [upsertAnswerList, if_neg h, List.find?_cons_of_neg _ h]
        exact ih

theorem upsert_find_other {sid qid sid' qid' : Nat} (cid : Nat)
    (hne : ¬(sid = sid' ∧ qid = qid')) (l : List UserAnswer) :
    (upsertAnswerList sid qid cid l).find? (matchKey sid' qid')
      = l.find? (matchKey sid' qid') := by
  induction l with
  | nil =>
      simp only [upsertAnswerList, List.find?, matchKey]
      simp [hne]
  | cons a rest ih =>
      by_cases h : matchKey sid qid a = true
      · obtain ⟨h1, h2⟩ := matchKey_eq_true.mp h
        by_cases h' : matchKey sid' qid' a = true
        · obtain ⟨g1, g2⟩ := matchKey_eq_true.mp h'
          exact absurd ⟨by rw [← h1, g1], by rw [← h2, g2]⟩ hne
        · have hhead : ¬(matchKey sid' qid' (⟨a.sessionId, a.questionId, cid⟩ : UserAnswer) = true) := h'
          rw [upsertAnswerList, if_pos h, List.find?_cons_of_neg _ hhead,
            List.find?_cons_of_neg _ h']
      · rw [upsertAnswerList, if_neg h]
        by_cases h' : matchKey sid' qid' a = true
        · rw [List.find?_cons_of_pos _ h', List.find?_cons_of_pos _ h']
        · rw [List.find?_cons_of_neg _ h', List.find?_cons_of_neg _ h']
          exact ih

theorem upsert_keys_sub (sid qid cid : Nat) (l : List UserAnswer) :
    ∀ x ∈ (upsertAnswerList sid qid cid l).map answerKey,
      x ∈ l.map answerKey ∨ x = (sid, qid) := by
  induction l with
  | nil =>
      intro x hx
      simp [upsertAnswerList, answerKey] at hx
      exact Or.inr hx
  | cons a rest ih =>
      intro x hx
      by_cases h : matchKey sid qid a = true
      · rw [upsertAnswerList, if_pos h] at hx
        simp only [List.map_cons, List.mem_cons] at hx ⊢
        rcases hx with hx | hx
        · exact Or.inl (Or.inl (by rw [hx]; rfl))
        · exact Or.inl (Or.inr hx)
      · rw [upsertAnswerList, if_neg h] at hx
        simp only [List.map_cons, List.mem_cons] at hx ⊢
        rcases hx with hx | hx
        · exact Or.inl (Or.inl hx)
        · rcases ih x hx with h' | h'
          · exact Or.inl (Or.inr h')
          · exact Or.inr h'

theorem upsert_nodup (sid qid cid : Nat) {l : List UserAnswer}
    (h : (l.map answerKey).Nodup) :
    ((upsertAnswerList sid qid cid l).map answerKey).Nodup := by
  induction l with
  | nil => simp [upsertAnswerList]
  | cons a rest ih =>
      rw [List.map_cons, List.nodup_cons] at h
      by_cases hm : matchKey sid qid a = true
      · rw [upsertAnswerList, if_pos hm, List.map_cons, List.nodup_cons]
        exact ⟨h.1, h.2⟩
      · rw [upsertAnswerList, if_neg hm, List.map_cons, List.nodup_cons]
        refine ⟨?_, ih h.2⟩
        intro hmem
        rcases upsert_keys_sub sid qid cid rest _ hmem with h' | h'
        · exact h.1 h'
        · simp only [answerKey, Prod.mk.injEq] at h'
          exact hm (matchKey_eq_true.mpr h')

theorem filter_matchKey_length_le_one {l : List UserAnswer}
    (h : (l.map answerKey).Nodup) (sid qid : Nat) :
    (l.filter (matchKey sid qid)).length ≤ 1 := by
  induction l with
  | nil => simp
  | cons a rest ih =>
      rw [List.map_cons, List.nodup_cons] at h
      by_cases hm : matchKey sid qid a = true
      · rw [List.filter_cons_of_pos hm]
        have hr : rest.filter (matchKey sid qid) = [] := by
          rw [List.filter_eq_nil_iff]
          intro b hb hmb
          apply h.1
          obtain ⟨e1, e2⟩ := matchKey_eq_true.mp hm
          obtain ⟨f1, f2⟩ := matchKey_eq_true.mp hmb
          have hk : answerKey b = answerKey a := by
            simp [answerKey, e1, e2, f1, f2]
          rw [← hk]
          exact List.mem_map_of_mem _ hb
        rw [hr]
        simp
      · rw [List.filter_cons_of_neg hm]
        exact ih h.2

theorem nextPrev_of_not_ok {r : SubmitResult} (h : ∀ a b c, r ≠ .ok a b c)
    (sid qid : Nat) (prev : Option Nat) : nextPrev r sid qid prev = prev := by
  cases r with
  | ok a b c => exact absurd rfl (h a b c)
  | sessionNotFound => rfl
  | alreadyCompleted => rfl
  | timedOut => rfl
  | missingIds => rfl
  | invalidQuestion => rfl
  | invalidChoice => rfl

theorem submit_answer_cases (st : Store) (now : Int) (s0 : Nat) (iq ic : Option Nat) :
    ((submit_answer st now s0 iq ic).1.answers = st.answers
      ∧ ∀ a b c, (submit_answer st now s0 iq ic).2 ≠ .ok a b c)
    ∨ ∃ a b c, (submit_answer st now s0 iq ic).1.answers = upsertAnswerList a b c st.answers
        ∧ (submit_answer st now s0 iq ic).2 = .ok a b c := by
  unfold submit_answer
  repeat' split
  all_goals
    first
    | exact Or.inr ⟨_, _, _, rfl, rfl⟩
    | exact Or.inl ⟨rfl, by simp⟩
    | exact Or.inl ⟨complete_quiz_session_answers st now _, by simp⟩

theorem submit_answer_nodup {st : Store} (now : Int) (s0 : Nat) (iq ic : Option Nat)
    (h : answerKeysNodup st) : answerKeysNodup (submit_answer st now s0 iq ic).1 := by
  rcases submit_answer_cases st now s0 iq ic with ⟨heq, _⟩ | ⟨a, b, c, heq, _⟩
  · unfold answerKeysNodup at h ⊢
    rw [heq]
    exact h
  · unfold answerKeysNodup at h ⊢
    rw [heq]
    exact upsert_nodup a b c h

theorem submit_answer_lookup (st : Store) (now : Int) (s0 : Nat) (iq ic : Option Nat)
    (sid qid : Nat) :
    lookupAnswerChoice (submit_answer st now s0 iq ic).1 sid qid =
      nextPrev (submit_answer st now s0 iq ic).2 sid qid (lookupAnswerChoice st sid qid) := by
  rcases submit_answer_cases st now s0 iq ic with ⟨heq, hne⟩ | ⟨a, b, c, heq, hok⟩
  · have hl : lookupAnswerChoice (submit_answer st now s0 iq ic).1 sid qid
        = lookupAnswerChoice st sid qid := by
      unfold lookupAnswerChoice
      rw [heq]
    rw [hl, nextPrev_of_not_ok hne]
  · rw [hok]
    unfold lookupAnswerChoice
    rw [heq]
    by_cases hk : a = sid ∧ b = qid
    · obtain ⟨rfl, rfl⟩ := hk
      rw [upsert_find_same]
      simp [nextPrev]
    · rw [upsert_find_other c hk]
      simp [nextPrev, hk]

theorem runSubmits_nodup (ops : List SubmitOp) : ∀ st : Store, answerKeysNodup st →
    answerKeysNodup (runSubmits st ops) := by
  induction ops with
  | nil => exact fun st h => h
  | cons op rest ih =>
      intro st h
      rw [runSubmits]
      exact ih _ (submit_answer_nodup op.now op.sessionId op.question_id op.choice_id h)

theorem runSubmits_lookup (sid qid : Nat) (ops : List SubmitOp) : ∀ st : Store,
    lookupAnswerChoice (runSubmits st ops) sid qid =
      lastSuccessfulChoice st sid qid (lookupAnswerChoice st sid qid) ops := by
  induction ops with
  | nil => exact fun st => rfl
  | cons op rest ih =>
      intro st
      simp only [runSubmits, lastSuccessfulChoice]
      rw [ih, submit_answer_lookup]

/-! ## C5: at most one answer per (session, question); last write wins -/

/-- C5.  Starting from a store whose answer table respects the unique
(session, question) constraint, any sequence of `submit_answer` calls leaves
at most one answer row for a given pair, and the stored selected choice is
exactly the one tracked by the last successful submission for the pair (or the
pre-existing row when no call for the pair succeeded). -/
theorem c5_answer_upsert (st : Store) (sid qid : Nat) (ops : List SubmitOp)
    (h : answerKeysNodup st) :
    ((runSubmits st ops).answers.filter (matchKey sid qid)).length ≤ 1
    ∧ lookupAnswerChoice (runSubmits st ops) sid qid
        = lastSuccessfulChoice st sid qid (lookupAnswerChoice st sid qid) ops :=
  ⟨filter_matchKey_length_le_one (runSubmits_nodup ops st h) sid qid,
   runSubmits_lookup sid qid ops st⟩

/-- Witness for C5: in the sample store, re-answering question 10 with choice
101 and then answering question 11 leaves at most one row for (5, 10), holding
the latest choice 101. -/
theorem c5_answer_upsert_witness :
    ((runSubmits stEx opsEx).answers.filter (matchKey 5 10)).length ≤ 1
    ∧ lookupAnswerChoice (runSubmits stEx opsEx) 5 10 = some 101 := by
  have h := c5_answer_upsert stEx 5 10 opsEx (by unfold answerKeysNodup; decide)
  exact ⟨h.1, h.2.trans (by decide)⟩

/-! ## Share upsert lemmas (C9) -/

theorem updateShareList_keys (quizId grantee : Nat) (p : Perm) (l : List QuizShare) :
    (updateShareList quizId grantee p l).map (fun sh => (sh.quizId, sh.shared_with))
      = l.map (fun sh => (sh.quizId, sh.shared_with)) := by
  induction l with
  | nil => rfl
  | cons sh rest ih =>
      by_cases h : shareKeyMatch quizId grantee sh = true
      · rw [updateShareList, if_pos h]
        rfl
      · rw [updateShareList, if_neg h, List.map_cons, List.map_cons, ih]

theorem shareAction_nodup {st : Store} (g : Nat) (qz : Quiz) (grantee : Nat) (p : Perm)
    (h : shareKeysNodup st) : shareKeysNodup (shareAction st g qz grantee p).1 := by
  unfold shareAction
  by_cases ha : qz.creator = g ∨ hasEditShare st qz.id g = true
  · rw [if_pos ha]
    cases hf : st.shares.find? (shareKeyMatch qz.id grantee) with
    | some sh =>
        unfold shareKeysNodup at h ⊢
        rw [updateShareList_keys]
        exact h
    | none =>
        unfold shareKeysNodup at h ⊢
        rw [List.map_append, List.nodup_append]
        refine ⟨h, List.nodup_singleton _, ?_⟩
        intro x hx hx'
        simp only [List.map_cons, List.map_nil, List.mem_singleton] at hx'
        subst hx'
        obtain ⟨sh, hsh, hkey⟩ := List.mem_map.mp hx
        apply List.find?_eq_none.mp hf sh hsh
        rw [shareKeyMatch_eq_true]
        exact ⟨congrArg Prod.fst hkey, congrArg Prod.snd hkey⟩
  · rw [if_neg ha]
    exact h

theorem filter_updateShareList {l : List QuizShare} {quizId grantee : Nat} {sh0 : QuizShare}
    (p : Perm) (hnd : (l.map (fun sh => (sh.quizId, sh.shared_with))).Nodup)
    (hf : l.find? (shareKeyMatch quizId grantee) = some sh0) :
    (updateShareList quizId grantee p l).filter (shareKeyMatch quizId grantee)
      = [{ sh0 with permission_type := p }] := by
  induction l with
  | nil => simp at hf
  | cons sh rest ih =>
      rw [List.map_cons, List.nodup_cons] at hnd
      by_cases hm : shareKeyMatch quizId grantee sh = true
      · rw [List.find?_cons_of_pos _ hm] at hf
        have hss : sh = sh0 := by simpa using hf
        rw [updateShareList, if_pos hm]
        rw [List.filter_cons_of_pos
          (show shareKeyMatch quizId grantee { sh with permission_type := p } = true from hm)]
        have hr : rest.filter (shareKeyMatch quizId grantee) = [] := by
          rw [List.filter_eq_nil_iff]
          intro b hb hmb
          apply hnd.1
          obtain ⟨e1, e2⟩ := shareKeyMatch_eq_true.mp hm
          obtain ⟨f1, f2⟩ := shareKeyMatch_eq_true.mp hmb
          have hk : (b.quizId, b.shared_with) = (sh.quizId, sh.shared_with) := by
            simp [e1, e2, f1, f2]
          rw [← hk]
          exact List.mem_map_of_mem _ hb
        rw [hr, hss]
      · rw [List.find?_cons_of_neg _ hm] at hf
        rw [updateShareList, if_neg hm, List.filter_cons_of_neg hm]
        exact ih hnd.2 hf

theorem shareAction_creator_sharesFor {st : Store} (qz : Quiz) (grantee : Nat) (p : Perm)
    (h : shareKeysNodup st) :
    ∃ sh, sharesFor (shareAction st qz.creator qz grantee p).1 qz.id grantee = [sh]
      ∧ sh.permission_type = p := by
  unfold shareAction
  rw [if_pos (Or.inl rfl)]
  cases hf : st.shares.find? (shareKeyMatch qz.id grantee) with
  | none =>
      refine ⟨(⟨qz.id, qz.creator, grantee, p⟩ : QuizShare), ?_, rfl⟩
      unfold sharesFor
      show (st.shares ++ [(⟨qz.id, qz.creator, grantee, p⟩ : QuizShare)]).filter
        (shareKeyMatch qz.id grantee) = _
      rw [List.filter_append]
      have h1 : st.shares.filter (shareKeyMatch qz.id grantee) = [] := by
        rw [List.filter_eq_nil_iff]
        exact List.find?_eq_none.mp hf
      rw [h1]
      simp [shareKeyMatch]
  | some sh0 =>
      exact ⟨{ sh0 with permission_type := p }, filter_updateShareList p h hf, rfl⟩

theorem runCreatorShares_sharesFor (qz : Quiz) (grantee : Nat) (p : Perm) (ps : List Perm) :
    ∀ st : Store, shareKeysNodup st →
      ∃ sh, sharesFor (runCreatorShares st qz grantee (ps ++ [p])) qz.id grantee = [sh]
        ∧ sh.permission_type = p := by
  induction ps with
  | nil =>
      intro st h
      simp only [List.nil_append, runCreatorShares]
      exact shareAction_creator_sharesFor qz grantee p h
  | cons p0 rest ih =>
      intro st h
      simp only [List.cons_append, runCreatorShares]
      exact ih _ (shareAction_nodup qz.creator qz grantee p0 h)

/-! ## C9: re-sharing upserts the (quiz, grantee) share -/

/-- C9.  Starting from a store whose share table respects the unique
(quiz, grantee) constraint, any non-empty sequence of `QuizViewSet.share`
calls by the quiz's creator for the pair leaves exactly one share row for the
pair, and it holds the permission level of the latest call. -/
theorem c9_share_upsert (st : Store) (qz : Quiz) (grantee : Nat)
    (ps : List Perm) (p : Perm) (h : shareKeysNodup st) :
    ∃ sh, sharesFor (runCreatorShares st qz grantee (ps ++ [p])) qz.id grantee = [sh]
      ∧ sh.permission_type = p :=
  runCreatorShares_sharesFor qz grantee p ps st h

/-- Witness for C9: sharing the sample quiz with user 2 as `view` and then as
`attempt` leaves exactly one share row for the pair, holding `attempt`. -/
theorem c9_share_upsert_witness :
    ∃ sh, sharesFor (runCreatorShares stEx quizEx 2 ([Perm.view] ++ [Perm.attempt]))
        quizEx.id 2 = [sh] ∧ sh.permission_type = Perm.attempt :=
  c9_share_upsert stEx quizEx 2 [Perm.view] Perm.attempt (by unfold shareKeysNodup; decide)

/-! ## Extraction-build lemmas (C10) -/

theorem createChoicesLoop_complete (questionId : Nat) :
    ∀ cds : List ChoiceData, (∀ cd ∈ cds, cd.choice_text.isSome = true) → ∀ k,
      createChoicesLoop questionId k cds = (choicesBlock questionId k cds, true) := by
  intro cds
  induction cds with
  | nil => intro _ k; rfl
  | cons cd rest ih =>
      intro h k
      obtain ⟨t, ht⟩ := Option.isSome_iff_exists.mp (h cd (List.mem_cons_self _ _))
      rw [createChoicesLoop]
      simp only [ht]
      rw [ih (fun cd' h' => h cd' (List.mem_cons_of_mem _ h')) (k + 1)]
      rw [choicesBlock]
      simp [mkChoice, ht]

theorem createQuestionsLoop_complete (quizId : Nat) :
    ∀ qds : List QuestionData,
      (∀ qd ∈ qds, qd.question_text.isSome = true ∧
        ∀ cd ∈ qd.choices.getD [], cd.choice_text.isSome = true) → ∀ k,
      createQuestionsLoop quizId k qds
        = (questionRows quizId k qds, choiceRows k qds, true) := by
  intro qds
  induction qds with
  | nil => intro _ k; rfl
  | cons qd rest ih =>
      intro h k
      obtain ⟨h1, h2⟩ := h qd (List.mem_cons_self _ _)
      obtain ⟨t, ht⟩ := Option.isSome_iff_exists.mp h1
      rw [createQuestionsLoop]
      simp only [ht]
      rw [createChoicesLoop_complete _ _ h2 0]
      rw [ih (fun qd' h' => h qd' (List.mem_cons_of_mem _ h')) (k + 1)]
      simp [questionRows, choiceRows, mkQuestion, ht]

theorem mem_choicesBlock_questionId {c : Choice} {qid : Nat} :
    ∀ {k : Nat} {cds : List ChoiceData}, c ∈ choicesBlock qid k cds → c.questionId = qid := by
  intro k cds
  induction cds generalizing k with
  | nil => intro h; simp [choicesBlock] at h
  | cons cd rest ih =>
      intro h
      rw [choicesBlock] at h
      rcases List.mem_cons.mp h with h | h
      · rw [h]; rfl
      · exact ih h

theorem mem_choiceRows {c : Choice} :
    ∀ {k : Nat} {qds : List QuestionData}, c ∈ choiceRows k qds →
      ∃ j qd, qds[j]? = some qd ∧ c ∈ choicesBlock (k + j) 0 (qd.choices.getD []) := by
  intro k qds
  induction qds generalizing k with
  | nil => intro h; simp [choiceRows] at h
  | cons qd rest ih =>
      intro h
      rw [choiceRows] at h
      rcases List.mem_append.mp h with h | h
      · exact ⟨0, qd, by simp, by simpa using h⟩
      · obtain ⟨j, qd', hj, hc⟩ := ih h
        refine ⟨j + 1, qd', by simpa using hj, ?_⟩
        have harith : k + (j + 1) = (k + 1) + j := by omega
        rw [harith]
        exact hc

theorem choicesBlock_mem (qid : Nat) {cd : ChoiceData} :
    ∀ {j k : Nat} {cds : List ChoiceData}, cds[j]? = some cd →
      mkChoice qid (k + j) cd ∈ choicesBlock qid k cds := by
  intro j k cds
  induction cds generalizing j k with
  | nil => intro h; simp at h
  | cons cd0 rest ih =>
      intro h
      cases j with
      | zero =>
          obtain rfl : cd0 = cd := by simpa using h
          rw [choicesBlock]
          exact List.mem_cons_self _ _
      | succ j' =>
          rw [choicesBlock]
          apply List.mem_cons_of_mem
          have harith : k + (j' + 1) = (k + 1) + j' := by omega
          rw [harith]
          exact ih (by simpa using h)

theorem choiceRows_mem {cd : ChoiceData} {qd : QuestionData} {j : Nat} :
    ∀ {i k : Nat} {qds : List QuestionData}, qds[i]? = some qd →
      (qd.choices.getD [])[j]? = some cd →
      mkChoice (k + i) j cd ∈ choiceRows k qds := by
  intro i k qds
  induction qds generalizing i k with
  | nil => intro h _; simp at h
  | cons qd0 rest ih =>
      intro hi hj
      cases i with
      | zero =>
          obtain rfl : qd0 = qd := by simpa using hi
          rw [choiceRows]
          apply List.mem_append_left
          have hmem := choicesBlock_mem (k + 0) (k := 0) hj
          simpa using hmem
      | succ i' =>
          rw [choiceRows]
          apply List.mem_append_right
          have harith : k + (i' + 1) = (k + 1) + i' := by omega
          rw [harith]
          exact ih (by simpa using hi) hj

/-! ## C10: only question_text and choice_text are required -/

/-- C10.  A payload whose question records all carry `question_text` and whose
choice records all carry `choice_text` is accepted (the builder returns the
quiz): a question record with no `choices` key yields a question with zero
stored choices, and a choice record with no `is_correct` key is stored with
`is_correct = false`. -/
theorem c10_optional_keys (userId : Nat) (title : String) (dur : Nat) (pub : Bool)
    (pd : ParsedData) (h : requiredKeysPresent pd) :
    (create_quiz_from_parsed_data userId title pd dur pub).returnedQuiz = true
    ∧ (∀ i qd, (pd.questions.getD [])[i]? = some qd → qd.choices = none →
        (create_quiz_from_parsed_data userId title pd dur pub).choices.filter
          (fun c => decide (c.questionId = i)) = [])
    ∧ (∀ i j qd cd, (pd.questions.getD [])[i]? = some qd →
        (qd.choices.getD [])[j]? = some cd → cd.is_correct = none →
        mkChoice i j cd ∈ (create_quiz_from_parsed_data userId title pd dur pub).choices
        ∧ (mkChoice i j cd).is_correct = false) := by
  have hb : create_quiz_from_parsed_data userId title pd dur pub =
      ⟨⟨0, title, userId, dur, pub, false⟩,
        questionRows 0 0 (pd.questions.getD []),
        choiceRows 0 (pd.questions.getD []), true⟩ := by
    simp only [create_quiz_from_parsed_data]
    rw [createQuestionsLoop_complete 0 (pd.questions.getD []) h 0]
  rw [hb]
  refine ⟨rfl, ?_, ?_⟩
  · intro i qd hi hnone
    rw [List.filter_eq_nil_iff]
    intro c hc hdec
    have hqi : c.questionId = i := of_decide_eq_true hdec
    obtain ⟨j, qd', hj, hcb⟩ := mem_choiceRows hc
    have hz := mem_choicesBlock_questionId hcb
    have hji : j = i := by omega
    subst hji
    rw [hi] at hj
    obtain rfl : qd = qd' := Option.some.inj hj
    rw [hnone] at hcb
    simp [choicesBlock] at hcb
  · intro i j qd cd hi hj hnone
    constructor
    · have hmem := choiceRows_mem (k := 0) hi hj
      simpa using hmem
    · simp [mkChoice, hnone]

/-- Witness for C10: on the sample optional-keys payload the build succeeds,
the first question (no `choices` key) has zero stored choices, and the second
question's choice (no `is_correct` key) is stored as not correct. -/
theorem c10_optional_keys_witness :
    (create_quiz_from_parsed_data 7 "T" pdOpt 10 false).returnedQuiz = true
    ∧ (create_quiz_from_parsed_data 7 "T" pdOpt 10 false).choices.filter
        (fun c => decide (c.questionId = 0)) = []
    ∧ mkChoice 1 0 ⟨some "A", none⟩ ∈ (create_quiz_from_parsed_data 7 "T" pdOpt 10 false).choices
    ∧ (mkChoice 1 0 ⟨some "A", none⟩).is_correct = false := by
  have h := c10_optional_keys 7 "T" 10 false pdOpt (by
    unfold requiredKeysPresent
    decide)
  refine ⟨h.1, h.2.1 0 ⟨some "Q1", none⟩ rfl rfl, ?_, ?_⟩
  · exact (h.2.2 1 0 ⟨some "Q2", some [⟨some "A", none⟩]⟩ ⟨some "A", none⟩ rfl rfl rfl).1
  · exact (h.2.2 1 0 ⟨some "Q2", some [⟨some "A", none⟩]⟩ ⟨some "A", none⟩ rfl rfl rfl).2

end QuizApp
